import Mathlib

/-!
Verification of the SimpleChatApp content-validation pipeline.

This file gives a shallow embedding, in Lean 4, of the guard components of the
repository (`src/guards/`): the Italian PII validator, the LLM topic validator
and its cache, the guard construction and configuration, and the streaming
output-validation adapter.  Strings are modelled as `List Char`; the regular
expressions of `italian_pii.py` are translated pattern-by-pattern into
executable matchers; the external LLM classifier is modelled by an explicit
outcome parameter (reply / transport error / other error) fed to the embedded
control flow.
-/

namespace ChatApp

/-! ### Character classes (ASCII, as used by the `re` patterns of `italian_pii.py`) -/

def isUpperAZ (c : Char) : Bool := 'A' ≤ c && c ≤ 'Z'

def isLowerAZ (c : Char) : Bool := 'a' ≤ c && c ≤ 'z'

def isDigit09 (c : Char) : Bool := '0' ≤ c && c ≤ '9'

def isAsciiLetter (c : Char) : Bool := isUpperAZ c || isLowerAZ c

/-- Regex word character `\w` (ASCII fragment): `[A-Za-z0-9_]`. -/
def isWordChar (c : Char) : Bool := isAsciiLetter c || isDigit09 c || c = '_'

/-- Regex whitespace class `\s` (ASCII fragment). -/
def isWs (c : Char) : Bool :=
  c = ' ' || c = '\t' || c = '\n' || c = '\r' || c = '\x0b' || c = '\x0c'

/-! ### String helpers mirroring the Python operations used by the guards -/

/-- Python `needle in hay` on strings: substring containment. -/
def containsSub (needle hay : List Char) : Bool :=
  (List.range (hay.length + 1)).any fun i => needle.isPrefixOf (hay.drop i)

/-- Python `str.lower` (ASCII fragment). -/
def toLowerStr (s : List Char) : List Char := s.map Char.toLower

/-- Python `str.upper` (ASCII fragment). -/
def toUpperStr (s : List Char) : List Char := s.map Char.toUpper

/-- Python `str.strip` (ASCII whitespace fragment). -/
def stripStr (s : List Char) : List Char :=
  ((s.dropWhile isWs).reverse.dropWhile isWs).reverse

/-- Python `", ".join(parts)`. -/
def joinComma : List (List Char) → List Char
  | [] => []
  | [x] => x
  | x :: y :: rest => x ++ (", ".data) ++ joinComma (y :: rest)

/-! ### The regular expressions of `ItalianPIIValidator.__init__` (src/guards/italian_pii.py)

Each `xxxCore s` decides whether `s` belongs to the language of the pattern
between the two `\b` anchors; the anchors themselves are handled by
`reSearchB`, which mirrors `pattern.search(value)` existence. -/

/-- `[A-Z]{6}[0-9]{2}[A-Z][0-9]{2}[A-Z][0-9]{3}[A-Z]` (fiscal code core). -/
def fiscalCore (s : List Char) : Bool :=
  match s with
  | [a, b, c, d, e, f, g, h, i, j, k, l, m, n, o, p] =>
    [a, b, c, d, e, f].all isUpperAZ && [g, h].all isDigit09 && isUpperAZ i &&
    [j, k].all isDigit09 && isUpperAZ l && [m, n, o].all isDigit09 && isUpperAZ p
  | _ => false

/-- Class `[A-Za-z0-9._%+-]` of the email local part. -/
def isLocalChar (c : Char) : Bool :=
  isAsciiLetter c || isDigit09 c || c = '.' || c = '_' || c = '%' || c = '+' || c = '-'

/-- Class `[A-Za-z0-9.-]` of the email domain part. -/
def isDomainChar (c : Char) : Bool :=
  isAsciiLetter c || isDigit09 c || c = '.' || c = '-'

/-- Class `[A-Z|a-z]` of the email top-level-domain part (the `|` is part of
the class in the source pattern). -/
def isTldChar (c : Char) : Bool := isUpperAZ c || c = '|' || isLowerAZ c

/-- `[A-Za-z0-9.-]+\.[A-Z|a-z]{2,}`: some split position `k` carries the
literal dot, a nonempty all-domain-class prefix before it and an
all-tld-class suffix of length at least 2 after it. -/
def emailDomain (u : List Char) : Bool :=
  (List.range u.length).any fun k =>
    u[k]? == some '.' && decide (0 < k) && (u.take k).all isDomainChar &&
    decide (2 ≤ u.length - (k + 1)) && (u.drop (k + 1)).all isTldChar

/-- `[A-Za-z0-9._%+-]+@[A-Za-z0-9.-]+\.[A-Z|a-z]{2,}` (email core).  Since
`@` is not in the local class, the local part of any match is exactly the
maximal local-class prefix. -/
def emailCore (s : List Char) : Bool :=
  match s.dropWhile isLocalChar with
  | '@' :: dom => !(s.takeWhile isLocalChar).isEmpty && emailDomain dom
  | _ => false

/-- Optional `[\s\-]?`: the possible remainders of `s`. -/
def optSep (s : List Char) : List (List Char) :=
  s :: (match s with
    | c :: r => if isWs c || c = '-' then [r] else []
    | [] => [])

/-- Optional `(?:\+39|0039)?`: the possible remainders of `s`. -/
def optIntlCode (s : List Char) : List (List Char) :=
  s :: (match s with
    | '+' :: '3' :: '9' :: r => [r]
    | '0' :: '0' :: '3' :: '9' :: r => [r]
    | _ => [])

/-- Optional `[\s]?`: the possible remainders of `s`. -/
def optWs (s : List Char) : List (List Char) :=
  s :: (match s with
    | c :: r => if isWs c then [r] else []
    | [] => [])

/-- `3[0-9]{2}[\s\-]?[0-9]{6,7}` (tail of the first phone alternative). -/
def phoneAlt1Tail (s : List Char) : Bool :=
  match s with
  | '3' :: d1 :: d2 :: rest =>
    isDigit09 d1 && isDigit09 d2 &&
    ((optSep rest).any fun t =>
      t.all isDigit09 && decide (6 ≤ t.length) && decide (t.length ≤ 7))
  | _ => false

/-- `0[0-9]{2,3}[\s\-]?[0-9]{6,8}` (tail of the second phone alternative). -/
def phoneAlt2Tail (s : List Char) : Bool :=
  match s with
  | '0' :: rest =>
    [2, 3].any fun n =>
      (rest.take n).length == n && (rest.take n).all isDigit09 &&
      ((optSep (rest.drop n)).any fun t =>
        t.all isDigit09 && decide (6 ≤ t.length) && decide (t.length ≤ 8))
  | _ => false

/-- First phone alternative `(?:\+39|0039)?[\s\-]?3[0-9]{2}[\s\-]?[0-9]{6,7}`. -/
def phoneAlt1 (s : List Char) : Bool :=
  (optIntlCode s).any fun s1 => (optSep s1).any phoneAlt1Tail

/-- Second phone alternative `(?:\+39|0039)?[\s\-]?0[0-9]{2,3}[\s\-]?[0-9]{6,8}`. -/
def phoneAlt2 (s : List Char) : Bool :=
  (optIntlCode s).any fun s1 => (optSep s1).any phoneAlt2Tail

/-- Phone core: the two alternatives of `phone_pattern`. -/
def phoneCore (s : List Char) : Bool := phoneAlt1 s || phoneAlt2 s

/-- One `[0-9]{4}[\s\-]?` group of the credit-card pattern: the possible
remainders after consuming four digits and an optional separator. -/
def cardGroup (s : List Char) : List (List Char) :=
  match s with
  | a :: b :: c :: d :: rest =>
    if [a, b, c, d].all isDigit09 then optSep rest else []
  | _ => []

/-- `(?:[0-9]{4}[\s\-]?){3}[0-9]{4}` (credit-card core). -/
def cardCore (s : List Char) : Bool :=
  (cardGroup s).any fun s1 => (cardGroup s1).any fun s2 => (cardGroup s2).any fun s3 =>
    match s3 with
    | [a, b, c, d] => [a, b, c, d].all isDigit09
    | _ => false

/-- Consume exactly `n` digits; `none` if impossible. -/
def digitsN (n : Nat) (s : List Char) : Option (List Char) :=
  if (s.take n).length == n && (s.take n).all isDigit09 then some (s.drop n) else none

/-- Tail of the IBAN core after `IT[0-9]{2}[\s]?[A-Z][0-9]{3}`:
`[\s]?[0-9]{4}[\s]?[0-9]{4}[\s]?[0-9]{4}[\s]?[0-9]{3}`. -/
def ibanQuads (s : List Char) : Bool :=
  (optWs s).any fun r1 =>
    match digitsN 4 r1 with
    | some r2 =>
      (optWs r2).any fun r3 =>
        match digitsN 4 r3 with
        | some r4 =>
          (optWs r4).any fun r5 =>
            match digitsN 4 r5 with
            | some r6 =>
              (optWs r6).any fun r7 =>
                match digitsN 3 r7 with
                | some r8 => r8.isEmpty
                | none => false
            | none => false
        | none => false
    | none => false

/-- `IT[0-9]{2}[\s]?[A-Z][0-9]{3}[\s]?[0-9]{4}[\s]?[0-9]{4}[\s]?[0-9]{4}[\s]?[0-9]{3}`
(IBAN core). -/
def ibanCore (s : List Char) : Bool :=
  match s with
  | 'I' :: 'T' :: rest =>
    match digitsN 2 rest with
    | some r1 =>
      (optWs r1).any fun r2 =>
        match r2 with
        | l :: r3 =>
          isUpperAZ l &&
          (match digitsN 3 r3 with
           | some r4 => ibanQuads r4
           | none => false)
        | [] => false
    | none => false
  | _ => false

/-! ### `re.search` with `\b` anchors -/

/-- Whether the character before position `i` is a word character. -/
def prevIsWord (text : List Char) (i : Nat) : Bool :=
  match i with
  | 0 => false
  | j + 1 =>
    match text[j]? with
    | some c => isWordChar c
    | none => false

/-- Whether the character at position `i` is a word character. -/
def atIsWord (text : List Char) (i : Nat) : Bool :=
  match text[i]? with
  | some c => isWordChar c
  | none => false

/-- Regex `\b` at position `i`: word-ness changes between the two sides. -/
def wordBoundary (text : List Char) (i : Nat) : Bool :=
  prevIsWord text i != atIsWord text i

/-- `re.search` existence for a pattern `\b CORE \b`: some window of the text,
flanked by word boundaries, belongs to the core language. -/
def reSearchB (core : List Char → Bool) (text : List Char) : Bool :=
  (List.range (text.length + 1)).any fun i =>
    (List.range (text.length + 1 - i)).any fun len =>
      wordBoundary text i && wordBoundary text (i + len) &&
      core ((text.drop i).take len)

/-! ### `ItalianPIIValidator.validate` (src/guards/italian_pii.py, lines 49-85) -/

def fiscalName : List Char := "codice fiscale".data

def emailName : List Char := "email".data

def phoneName : List Char := "telefono".data

def cardName : List Char := "carta di credito".data

def ibanName : List Char := "IBAN".data

/-- The `detected_pii` list built by `validate`: every pattern is checked, in
source order, with no short-circuit. -/
def detectedPII (value : List Char) : List (List Char) :=
  (if reSearchB fiscalCore value then [fiscalName] else []) ++
  (if reSearchB emailCore value then [emailName] else []) ++
  (if reSearchB phoneCore value then [phoneName] else []) ++
  (if reSearchB cardCore value then [cardName] else []) ++
  (if reSearchB ibanCore value then [ibanName] else [])

inductive PIIResult
  | pass : PIIResult
  | fail (errorMessage : List Char) : PIIResult
deriving DecidableEq

/-- The failure message built from the joined category names. -/
def piiMessage (piiTypes : List Char) : List Char :=
  "Rilevati dati personali sensibili: ".data ++ piiTypes ++
  ". Per motivi di sicurezza e privacy, non posso elaborare informazioni personali identificabili.".data

/-- `ItalianPIIValidator.validate`: Fail listing the matched categories when
at least one pattern matched, Pass otherwise. -/
def italianPIIValidate (value : List Char) : PIIResult :=
  match detectedPII value with
  | [] => PIIResult.pass
  | detected => PIIResult.fail (piiMessage (joinComma detected))

/-! ### `LLMTopicValidator` (src/guards/custom.py)

The external Ollama exchange of `_classify_with_llm` is modelled by an
explicit `ClassifierOutcome` argument: what the network call would produce if
it were attempted during this check.  The embedded control flow (cache
lookup, reply parsing, fail-open error handling, cache insertion) follows the
source. -/

inductive ClassifierOutcome
  | reply (response : List Char)
  /-- `httpx.TimeoutException` or `httpx.RequestError` (lines 116-118). -/
  | transportError
  /-- any other exception during classification (lines 119-121). -/
  | otherError
deriving DecidableEq

/-- The validator's `_cache` dict: association list in insertion order. -/
abbrev TopicCache := List (List Char × Bool)

def cacheLookup (cache : TopicCache) (k : List Char) : Option Bool :=
  (cache.find? fun e => e.1 == k).map fun e => e.2

/-- `cache_key = text.lower().strip()[:100]` (line 73). -/
def normKey (text : List Char) : List Char :=
  (stripStr (toLowerStr text)).take 100

/-- `result.get("response", "").strip().upper()` then `"CONSENTITO" in llm_output`
(lines 103-107). -/
def parseAllowed (response : List Char) : Bool :=
  containsSub ("CONSENTITO".data) (toUpperStr (stripStr response))

structure ClassifyResult where
  isAllowed : Bool
  cache : TopicCache
  /-- whether this call performed the external network exchange -/
  networkUsed : Bool
deriving DecidableEq

/-- `LLMTopicValidator._classify_with_llm` (lines 69-121). -/
def classifyWithLLM (cache : TopicCache) (text : List Char)
    (outcome : ClassifierOutcome) : ClassifyResult :=
  let cacheKey := normKey text
  match cacheLookup cache cacheKey with
  | some cached => ⟨cached, cache, false⟩
  | none =>
    match outcome with
    | ClassifierOutcome.reply response =>
      let isAllowed := parseAllowed response
      -- `if len(self._cache) < 100: self._cache[cache_key] = is_allowed` (lines 110-111)
      let cache' := if cache.length < 100 then cache ++ [(cacheKey, isAllowed)] else cache
      ⟨isAllowed, cache', true⟩
    | ClassifierOutcome.transportError => ⟨true, cache, true⟩   -- fail-open (line 118)
    | ClassifierOutcome.otherError => ⟨true, cache, true⟩       -- fail-open (line 121)

inductive TopicResult
  | pass
  | fail (errorMessage : List Char)
deriving DecidableEq

/-- The default `blocked_topics` list (lines 30-35). -/
def blockedTopics : List (List Char) :=
  ["consigli medici personali".data, "opinioni politiche".data,
   "consigli finanziari personali".data, "contenuti inappropriati".data]

/-- The `FailResult.error_message` of `validate_async` (lines 135-140). -/
def topicFailMessage : List Char :=
  "Sono un sistema AI per analytics di database. Non posso fornire ".data ++
  joinComma blockedTopics ++
  ". Posso aiutarti con query database, analisi dati e programmazione.".data

/-- `LLMTopicValidator.validate_async` (lines 123-149).  `_classify_with_llm`
already converts every internal exception into a fail-open `True`, so the
outer `except` of `validate_async` adds no further behaviour to model. -/
def validateAsync (cache : TopicCache) (value : List Char)
    (outcome : ClassifierOutcome) : TopicResult × TopicCache × Bool :=
  let r := classifyWithLLM cache value outcome
  if r.isAllowed then (TopicResult.pass, r.cache, r.networkUsed)
  else (TopicResult.fail topicFailMessage, r.cache, r.networkUsed)

/-- A sequence of `check` calls against a shared cache: each element is the
input text together with the outcome the classifier service would produce for
that call.  Returns the final cache and, per call, the verdict and whether
the network was used. -/
def runTrace (cache : TopicCache) :
    List (List Char × ClassifierOutcome) → TopicCache × List (TopicResult × Bool)
  | [] => (cache, [])
  | (text, outcome) :: rest =>
    let r := validateAsync cache text outcome
    let next := runTrace r.2.1 rest
    (next.1, (r.1, r.2.2) :: next.2)

/-! ### Configuration and guard construction
(src/guards/config.py, src/guards/validators.py, src/guards/middleware.py) -/

/-- The recognized configuration options consumed by the guard constructors.
`toxicThreshold` is `none` when the `"toxic_threshold"` key is absent from
the dict (so that `config.get` falls back to its call-site default).
Thresholds are modelled as rationals: `4/5` stands for the float `0.8` and
`9/10` for `0.9`, which is order-faithful. -/
structure GuardrailsConfig where
  toxicThreshold : Option ℚ
  profanityFilter : Bool
  enableTopicRestriction : Bool
  useLlmTopic : Bool
  enablePiiDetection : Bool
  useItalianPii : Bool
deriving DecidableEq

/-- `DEFAULT_CONFIG` (src/guards/config.py, lines 4-23). -/
def DEFAULT_CONFIG : GuardrailsConfig :=
  ⟨some (4 / 5), true, true, true, true, true⟩

/-- `load_config` returns `DEFAULT_CONFIG.copy()` (lines 32-38). -/
def loadConfig : GuardrailsConfig := DEFAULT_CONFIG

/-- `config.get("toxic_threshold", 0.8)` in `create_input_guard`
(src/guards/validators.py, line 45). -/
def inputGuardToxicThreshold (config : GuardrailsConfig) : ℚ :=
  config.toxicThreshold.getD (4 / 5)

/-- `config.get("toxic_threshold", 0.9)` in `create_output_guard`
(src/guards/validators.py, line 63). -/
def outputGuardToxicThreshold (config : GuardrailsConfig) : ℚ :=
  config.toxicThreshold.getD (9 / 10)

/-- The validator classes that can appear in a guard's chain. -/
inductive ValidatorKind
  | italianPII
  | detectPII
  | llmTopic
  | toxicLanguage
  | profanityFree
  /-- `DirectTopicValidator` of src/guards/direct_topic.py -/
  | directTopic
deriving DecidableEq

/-- The validator chain built by `create_input_guard`
(src/guards/validators.py, lines 11-53). -/
def createInputGuardValidators (c : GuardrailsConfig) : List ValidatorKind :=
  (if c.enablePiiDetection then
     (if c.useItalianPii then [ValidatorKind.italianPII] else [ValidatorKind.detectPII])
   else []) ++
  (if c.enableTopicRestriction && c.useLlmTopic then [ValidatorKind.llmTopic] else []) ++
  [ValidatorKind.toxicLanguage, ValidatorKind.profanityFree]

/-- `add_topic_restriction` builds a guard holding one `LLMTopicValidator`
(src/guards/custom.py, lines 224-240). -/
def addTopicRestrictionValidators : List ValidatorKind := [ValidatorKind.llmTopic]

/-- The input-guard chain after `GuardrailsMiddleware.__init__`
(src/guards/middleware.py, lines 35-53): base validators, extended with the
topic guard's validators when topic restriction is enabled. -/
def middlewareInputGuardValidators (c : GuardrailsConfig) : List ValidatorKind :=
  if c.enableTopicRestriction then
    createInputGuardValidators c ++ addTopicRestrictionValidators
  else
    createInputGuardValidators c

/-! ### `DirectTopicValidator.validate` (src/guards/direct_topic.py, lines 21-53) -/

def medicalPatterns : List (List Char) :=
  ["suggerisci".data, "consigli per".data, "rimedio".data, "cura per".data,
   "mal di".data, "cosa prendo".data, "farmaco".data, "medicina".data]

def analysisWords : List (List Char) :=
  ["analisi".data, "dati".data, "database".data, "query".data]

inductive DirectTopicResult
  | passValue (value : List Char)
  | validationError (message : List Char)
deriving DecidableEq

def directTopicMessage : List Char :=
  ("Sono un sistema AI per database analytics. " ++
   "Non posso fornire consigli medici personali. " ++
   "Posso aiutarti con query database e analisi dati.").data

/-- The pattern loop of `DirectTopicValidator.validate`: a medical pattern
raises only when no analysis/query word is present (the `continue` branch of
lines 41-43 suppresses the match). -/
def directTopicValidate (value : List Char) : DirectTopicResult :=
  let textLower := toLowerStr value
  if medicalPatterns.any (fun p =>
       containsSub p textLower &&
       !(analysisWords.any fun w => containsSub w textLower)) then
    DirectTopicResult.validationError directTopicMessage
  else
    DirectTopicResult.passValue value

/-! ### Streaming output validation (src/guards/middleware.py, lines 301-396)

Each unit yielded by the SSE producer (src/routes.py) is a whole
`data: {json}\n\n` event, so a chunk is modelled as the list of SSE lines it
decodes to; JSON decoding of a `data: ` line is abstracted into the
`SSELine` constructors (`other` covers non-`data:` lines, malformed JSON and
every event type other than `content`/`complete`, all of which the source
skips identically). -/

inductive SSELine
  /-- `{"type": "content", "chunk": ...}` -/
  | content (chunk : List Char)
  /-- `{"type": "complete", "final_content": ...}` -/
  | complete (finalContent : List Char)
  /-- any other line or event type: skipped by the extractor -/
  | other
deriving DecidableEq

/-- `GuardrailsMiddleware._extract_content_from_sse_stream` (lines 365-396):
`content` chunks accumulate; a `complete` event appends its `final_content`
and stops the loop, but only when that field is non-empty (the `break` sits
inside `if final_content:`). -/
def extractContentFromSSE : List SSELine → List Char
  | [] => []
  | SSELine.content chunk :: rest => chunk ++ extractContentFromSSE rest
  | SSELine.complete finalContent :: rest =>
    if finalContent.isEmpty then extractContentFromSSE rest else finalContent
  | SSELine.other :: rest => extractContentFromSSE rest

/-- Outcome of `output_guard.validate(final_text_content)` in the deferred
validation step: either an `outcome` object carrying `validated_output`, or a
raised exception. -/
inductive GuardOutcome
  | success (validatedOutput : List Char)
  | raised
deriving DecidableEq

/-- Observable actions of `validated_stream_wrapper`, in emission order. -/
inductive StreamAction
  /-- `yield chunk` -/
  | yieldChunk (chunk : List SSELine)
  /-- the single deferred `output_guard.validate` call -/
  | validateText (text : List Char)
  /-- `logger.warning(... content violations ...)` (line 341) -/
  | logViolation
  /-- `logger.warning(... validation failed ...)` (line 344) -/
  | logValidationFailed
deriving DecidableEq

/-- `GuardrailsMiddleware._validate_streaming_output`'s
`validated_stream_wrapper` (lines 309-351): forward every chunk while
accumulating, then extract text from the accumulated stream and validate once
when the extracted text is truthy and longer than 20 characters; a
post-delivery violation or a validation exception is only logged. -/
def validatedStreamWrapper (guard : List Char → GuardOutcome)
    (chunks : List (List SSELine)) : List StreamAction :=
  let finalText := extractContentFromSSE chunks.flatten
  chunks.map StreamAction.yieldChunk ++
  (if !finalText.isEmpty && decide (20 < finalText.length) then
    StreamAction.validateText finalText ::
      (match guard finalText with
       | GuardOutcome.success validatedOutput =>
         if validatedOutput ≠ finalText then [StreamAction.logViolation] else []
       | GuardOutcome.raised => [StreamAction.logValidationFailed])
   else [])

/-- Number of `output_guard.validate` calls in an action sequence. -/
def countValidateActions (actions : List StreamAction) : Nat :=
  actions.countP fun a =>
    match a with
    | StreamAction.validateText _ => true
    | _ => false

/-- Modelled from the claim C10's words (for comparison with
`extractContentFromSSE`): the concatenation of the chunk fields of every
`content` event preceding the first `complete` event, followed by that
event's `final_content`; extraction stops at the first `complete` event. -/
def specExtractC10 : List SSELine → List Char
  | [] => []
  | SSELine.content chunk :: rest => chunk ++ specExtractC10 rest
  | SSELine.complete finalContent :: _ => finalContent
  | SSELine.other :: rest => specExtractC10 rest

/-! ## Theorems -/

/-! ### Substring lemmas -/

theorem containsSub_eq_true_iff {n h : List Char} :
    containsSub n h = true ↔ ∃ pre post, h = pre ++ n ++ post := by
  constructor
  · intro hc
    rcases List.any_eq_true.mp hc with ⟨i, _, hp⟩
    rcases (by simpa using hp : n <+: h.drop i) with ⟨t, ht⟩
    refine ⟨h.take i, t, ?_⟩
    rw [List.append_assoc, ht, List.take_append_drop]
  · rintro ⟨pre, post, rfl⟩
    apply List.any_eq_true.mpr
    refine ⟨pre.length, List.mem_range.mpr ?_, ?_⟩
    · simp [List.length_append]
      omega
    · rw [List.append_assoc, List.drop_left]
      simp

theorem containsSub_self (a : List Char) : containsSub a a = true :=
  containsSub_eq_true_iff.mpr ⟨[], [], by simp⟩

theorem containsSub_append_left {a t : List Char} (s : List Char)
    (h : containsSub a t = true) : containsSub a (s ++ t) = true := by
  rcases containsSub_eq_true_iff.mp h with ⟨pre, post, rfl⟩
  exact containsSub_eq_true_iff.mpr ⟨s ++ pre, post, by simp⟩

theorem containsSub_append_right {a s : List Char} (t : List Char)
    (h : containsSub a s = true) : containsSub a (s ++ t) = true := by
  rcases containsSub_eq_true_iff.mp h with ⟨pre, post, rfl⟩
  exact containsSub_eq_true_iff.mpr ⟨pre, post ++ t, by simp⟩

theorem containsSub_subset {n h : List Char} (hc : containsSub n h = true) :
    ∀ c ∈ n, c ∈ h := by
  rcases containsSub_eq_true_iff.mp hc with ⟨pre, post, rfl⟩
  intro c hcn
  simp [hcn]

theorem containsSub_joinComma {a : List Char} {l : List (List Char)} (ha : a ∈ l) :
    containsSub a (joinComma l) = true := by
  induction l with
  | nil => cases ha
  | cons x rest ih =>
    cases rest with
    | nil =>
      rcases List.mem_cons.mp ha with rfl | h
      · exact containsSub_self a
      · cases h
    | cons y rest2 =>
      rcases List.mem_cons.mp ha with rfl | h
      · rw [joinComma, List.append_assoc]
        exact containsSub_append_right _ (containsSub_self a)
      · rw [joinComma]
        exact containsSub_append_left _ (ih h)

theorem mem_joinComma {c : Char} {l : List (List Char)} (hc : c ∈ joinComma l) :
    (∃ x ∈ l, c ∈ x) ∨ c ∈ (", ".data) := by
  induction l with
  | nil => cases hc
  | cons x rest ih =>
    cases rest with
    | nil => exact Or.inl ⟨x, by simp, hc⟩
    | cons y rest2 =>
      rw [joinComma] at hc
      rcases List.mem_append.mp hc with h1 | h2
      · rcases List.mem_append.mp h1 with ha | hb
        · exact Or.inl ⟨x, by simp, ha⟩
        · exact Or.inr hb
      · rcases ih h2 with ⟨z, hz, hcz⟩ | hsep
        · exact Or.inl ⟨z, by simp [hz], hcz⟩
        · exact Or.inr hsep

/-! ### C5: toxicity thresholds -/

/-- C5 counterexample: under the configuration the pipeline actually loads
(`load_config` returns `DEFAULT_CONFIG`, which carries
`toxic_threshold = 0.8`), the output guard's toxicity threshold is NOT
strictly greater than the input guard's — both `config.get` calls find the
key and return 0.8. -/
theorem C5_loaded_thresholds_equal :
    inputGuardToxicThreshold loadConfig = outputGuardToxicThreshold loadConfig
    ∧ decide (inputGuardToxicThreshold loadConfig
        < outputGuardToxicThreshold loadConfig) = false := by
  constructor
  · rfl
  · norm_num [inputGuardToxicThreshold, outputGuardToxicThreshold, loadConfig, DEFAULT_CONFIG]

/-- C5 (amended): the fallback defaults of the two guard constructors are
0.8 (input) and 0.9 (output), and only when the `toxic_threshold` key is
absent is the output guard's threshold strictly greater; under the loaded
configuration, which sets the key to 0.8, both guards use 0.8. -/
theorem C5_threshold_defaults :
    inputGuardToxicThreshold loadConfig = 4 / 5
    ∧ outputGuardToxicThreshold loadConfig = 4 / 5
    ∧ ∀ c : GuardrailsConfig, c.toxicThreshold = none →
        inputGuardToxicThreshold c = 4 / 5 ∧ outputGuardToxicThreshold c = 9 / 10 ∧
        inputGuardToxicThreshold c < outputGuardToxicThreshold c := by
  refine ⟨rfl, rfl, fun c hc => ?_⟩
  simp [inputGuardToxicThreshold, outputGuardToxicThreshold, hc]
  norm_num

/-- C5 witness: the amended statement applied to a configuration without the
`toxic_threshold` key. -/
theorem C5_threshold_defaults_witness :
    inputGuardToxicThreshold ⟨none, true, true, true, true, true⟩ = 4 / 5
    ∧ outputGuardToxicThreshold ⟨none, true, true, true, true, true⟩ = 9 / 10 := by
  have h := C5_threshold_defaults.2.2 ⟨none, true, true, true, true, true⟩ rfl
  exact ⟨h.1, h.2.1⟩

/-! ### C4: the keyword topic stage -/

/-- C4 counterexample: the input guard the middleware actually builds never
contains the keyword-stage validator `DirectTopicValidator` — its chain is
Italian PII, the LLM topic validator (twice), toxic language and profanity
only. -/
theorem C4_keyword_stage_not_in_pipeline :
    middlewareInputGuardValidators loadConfig
      = [ValidatorKind.italianPII, ValidatorKind.llmTopic, ValidatorKind.toxicLanguage,
         ValidatorKind.profanityFree, ValidatorKind.llmTopic]
    ∧ decide (ValidatorKind.directTopic ∈ middlewareInputGuardValidators loadConfig)
        = false := by
  constructor
  · rfl
  · rfl

/-- C4 (amended): the repository's keyword topic validator
(`DirectTopicValidator`) implements the analysis-vocabulary override — any
text matching a blocked-category keyword while also containing
analysis/query vocabulary produces no Fail — but that validator is not part
of the pipeline's input guard, which applies only the LLM topic classifier. -/
theorem C4_keyword_override :
    decide (ValidatorKind.directTopic ∈ middlewareInputGuardValidators loadConfig) = false
    ∧ ∀ value : List Char,
        (∃ p ∈ medicalPatterns, containsSub p (toLowerStr value) = true) →
        (∃ w ∈ analysisWords, containsSub w (toLowerStr value) = true) →
        directTopicValidate value = DirectTopicResult.passValue value := by
  refine ⟨by decide, fun value _ hw => ?_⟩
  obtain ⟨w, hwmem, hwsub⟩ := hw
  have hA : (analysisWords.any fun w => containsSub w (toLowerStr value)) = true :=
    List.any_eq_true.mpr ⟨w, hwmem, hwsub⟩
  simp [directTopicValidate, hA]

/-- C4 witness: a text with a medical keyword and analysis vocabulary passes
the keyword validator. -/
theorem C4_keyword_override_witness :
    directTopicValidate ("mal di testa analisi".data)
      = DirectTopicResult.passValue ("mal di testa analisi".data) :=
  C4_keyword_override.2 _ ⟨"mal di".data, by decide, by decide⟩
    ⟨"analisi".data, by decide, by decide⟩

/-! ### Topic classifier: cache step lemmas -/

theorem validateAsync_verdict (cache : TopicCache) (text : List Char)
    (o : ClassifierOutcome) :
    (validateAsync cache text o).1 =
      (if (classifyWithLLM cache text o).isAllowed then TopicResult.pass
       else TopicResult.fail topicFailMessage) := by
  unfold validateAsync
  split <;> simp_all

theorem validateAsync_cache (cache : TopicCache) (text : List Char)
    (o : ClassifierOutcome) :
    (validateAsync cache text o).2.1 = (classifyWithLLM cache text o).cache := by
  unfold validateAsync
  by_cases h : (classifyWithLLM cache text o).isAllowed <;> simp [h]

theorem validateAsync_network (cache : TopicCache) (text : List Char)
    (o : ClassifierOutcome) :
    (validateAsync cache text o).2.2 = (classifyWithLLM cache text o).networkUsed := by
  unfold validateAsync
  by_cases h : (classifyWithLLM cache text o).isAllowed <;> simp [h]

/-- On a cache miss, a successful reply is parsed and its parse is the
verdict source. -/
theorem classify_miss_reply_allowed (cache : TopicCache) (value response : List Char)
    (hmiss : cacheLookup cache (normKey value) = none) :
    (classifyWithLLM cache value (ClassifierOutcome.reply response)).isAllowed
      = parseAllowed response := by
  unfold classifyWithLLM
  simp only [hmiss]

theorem classify_hit (cache : TopicCache) (text : List Char) (o : ClassifierOutcome)
    (v : Bool) (h : cacheLookup cache (normKey text) = some v) :
    classifyWithLLM cache text o = ⟨v, cache, false⟩ := by
  unfold classifyWithLLM
  simp only [h]

theorem classify_miss_reply (cache : TopicCache) (text r : List Char)
    (hmiss : cacheLookup cache (normKey text) = none) (hroom : cache.length < 100) :
    classifyWithLLM cache text (ClassifierOutcome.reply r)
      = ⟨parseAllowed r, cache ++ [(normKey text, parseAllowed r)], true⟩ := by
  unfold classifyWithLLM
  simp only [hmiss, hroom, if_pos]

theorem classify_miss_reply_full (cache : TopicCache) (text r : List Char)
    (hmiss : cacheLookup cache (normKey text) = none) (hfull : ¬ cache.length < 100) :
    classifyWithLLM cache text (ClassifierOutcome.reply r)
      = ⟨parseAllowed r, cache, true⟩ := by
  unfold classifyWithLLM
  simp [hmiss, hfull]

theorem classify_miss_transport (cache : TopicCache) (text : List Char)
    (hmiss : cacheLookup cache (normKey text) = none) :
    classifyWithLLM cache text ClassifierOutcome.transportError = ⟨true, cache, true⟩ := by
  unfold classifyWithLLM
  simp only [hmiss]

theorem classify_miss_other (cache : TopicCache) (text : List Char)
    (hmiss : cacheLookup cache (normKey text) = none) :
    classifyWithLLM cache text ClassifierOutcome.otherError = ⟨true, cache, true⟩ := by
  unfold classifyWithLLM
  simp only [hmiss]

/-- The cache after one classification is either unchanged or extended at the
end by one entry keyed by the normalized text, and extension happens only
below the 100-entry cap. -/
theorem classify_cache_shape (cache : TopicCache) (text : List Char)
    (o : ClassifierOutcome) :
    (classifyWithLLM cache text o).cache = cache ∨
    (∃ v, (classifyWithLLM cache text o).cache = cache ++ [(normKey text, v)]
       ∧ cache.length < 100) := by
  unfold classifyWithLLM
  cases hl : cacheLookup cache (normKey text) with
  | some v => simp [hl]
  | none =>
    cases o with
    | reply r =>
      simp only [hl]
      by_cases hlen : cache.length < 100
      · exact Or.inr ⟨parseAllowed r, by simp [hlen], hlen⟩
      · simp [hlen]
    | transportError => simp [hl]
    | otherError => simp [hl]

theorem classify_cache_frozen (cache : TopicCache) (text : List Char)
    (o : ClassifierOutcome) (hfull : cache.length = 100) :
    (classifyWithLLM cache text o).cache = cache := by
  rcases classify_cache_shape cache text o with h | ⟨v, _, hlt⟩
  · exact h
  · omega

/-! ### C1: fail-open on classifier unavailability -/

/-- C1: over any sequence of checks in which every attempted classifier
exchange fails technically (unreachable service, timeout, or any other
error), every verdict is Pass — the classifier's unavailability never
produces a Fail. -/
theorem C1_classifier_fail_open (trace : List (List Char × ClassifierOutcome)) :
    (∀ e ∈ trace, e.2 = ClassifierOutcome.transportError
       ∨ e.2 = ClassifierOutcome.otherError) →
    ∀ r ∈ (runTrace [] trace).2, r.1 = TopicResult.pass := by
  induction trace with
  | nil =>
    intro _ r hr
    simp [runTrace] at hr
  | cons e rest ih =>
    intro herr r hr
    obtain ⟨t, o⟩ := e
    have ho : o = ClassifierOutcome.transportError ∨ o = ClassifierOutcome.otherError :=
      herr (t, o) (by simp)
    have hstep : validateAsync [] t o = (TopicResult.pass, [], true) := by
      rcases ho with rfl | rfl <;> rfl
    rw [runTrace] at hr
    simp only [hstep] at hr
    rcases List.mem_cons.mp hr with rfl | hr
    · rfl
    · exact ih (fun e he => herr e (List.mem_cons_of_mem _ he)) r hr

/-- C1 witness: a single check whose classifier exchange times out yields
Pass. -/
theorem C1_classifier_fail_open_witness :
    (TopicResult.pass, true)
        ∈ (runTrace [] [(("ciao".data), ClassifierOutcome.transportError)]).2
    ∧ ((TopicResult.pass, true) : TopicResult × Bool).1 = TopicResult.pass :=
  ⟨by decide,
   C1_classifier_fail_open [(("ciao".data), ClassifierOutcome.transportError)]
     (by decide) (TopicResult.pass, true) (by decide)⟩

/-! ### C6: reply token parsing -/

set_option maxRecDepth 4000 in
/-- C6 counterexample: a classifier reply that contains no allowed-token at
all (`"VIETATO"`) yields Fail from the check, not Pass — a non-token reply
is fail-closed, not fail-open as the claim states (and the token the source
parses for is `"CONSENTITO"`, not `"ALLOWED"`). -/
theorem C6_nontoken_reply_fails :
    containsSub ("ALLOWED".data) ("VIETATO".data) = false
    ∧ (validateAsync [] ("per chi votare?".data)
         (ClassifierOutcome.reply ("VIETATO".data))).1
        = TopicResult.fail topicFailMessage := by
  exact ⟨by decide, by decide⟩

/-- C6 (amended): on a cache miss the reply is parsed for an explicit
`"CONSENTITO"` token (after strip and uppercase): the check passes iff the
token occurs in the reply, a reply lacking the token yields Fail, and only
technical failures (timeout, transport error, other errors) are fail-open
Pass. -/
theorem C6_token_parse (cache : TopicCache) (value response : List Char)
    (hmiss : cacheLookup cache (normKey value) = none) :
    ((validateAsync cache value (ClassifierOutcome.reply response)).1 = TopicResult.pass ↔
      containsSub ("CONSENTITO".data) (toUpperStr (stripStr response)) = true)
    ∧ (validateAsync cache value ClassifierOutcome.transportError).1 = TopicResult.pass
    ∧ (validateAsync cache value ClassifierOutcome.otherError).1 = TopicResult.pass := by
  refine ⟨?_, ?_, ?_⟩
  · rw [validateAsync_verdict, classify_miss_reply_allowed cache value response hmiss]
    cases hp : parseAllowed response with
    | false =>
      unfold parseAllowed at hp
      simp [hp]
    | true =>
      unfold parseAllowed at hp
      simp [hp]
  · rw [validateAsync_verdict]
    unfold classifyWithLLM
    simp [hmiss]
  · rw [validateAsync_verdict]
    unfold classifyWithLLM
    simp [hmiss]

/-- C6 witness: a reply carrying the token (up to strip and case) passes. -/
theorem C6_token_parse_witness :
    (validateAsync [] ("ciao".data)
       (ClassifierOutcome.reply (" consentito ".data))).1 = TopicResult.pass :=
  (C6_token_parse [] ("ciao".data) (" consentito ".data) rfl).1.mpr (by decide)

/-! ### C7: cache invariants -/

theorem classify_cache_mem (cache : TopicCache) (text : List Char)
    (o : ClassifierOutcome) :
    ∀ e ∈ (classifyWithLLM cache text o).cache, e ∈ cache ∨ e.1 = normKey text := by
  intro e he
  rcases classify_cache_shape cache text o with h | ⟨v, h, _⟩ <;> rw [h] at he
  · exact Or.inl he
  · rcases List.mem_append.mp he with h1 | h2
    · exact Or.inl h1
    · simp at h2
      subst h2
      exact Or.inr rfl

theorem classify_cache_length (cache : TopicCache) (text : List Char)
    (o : ClassifierOutcome) (h : cache.length ≤ 100) :
    (classifyWithLLM cache text o).cache.length ≤ 100 := by
  rcases classify_cache_shape cache text o with hs | ⟨v, hs, hlt⟩ <;> rw [hs]
  · exact h
  · simp
    omega

theorem runTrace_cache_length (trace : List (List Char × ClassifierOutcome)) :
    ∀ cache : TopicCache, cache.length ≤ 100 → (runTrace cache trace).1.length ≤ 100 := by
  induction trace with
  | nil => intro cache h; exact h
  | cons q rest ih =>
    intro cache h
    obtain ⟨t, o⟩ := q
    rw [runTrace]
    dsimp only
    refine ih _ ?_
    rw [validateAsync_cache]
    exact classify_cache_length _ _ _ h

theorem runTrace_cache_keys (trace : List (List Char × ClassifierOutcome)) :
    ∀ cache : TopicCache,
      ∀ e ∈ (runTrace cache trace).1, e ∈ cache ∨ ∃ p ∈ trace, e.1 = normKey p.1 := by
  induction trace with
  | nil => intro cache e he; exact Or.inl he
  | cons q rest ih =>
    intro cache e he
    obtain ⟨t, o⟩ := q
    rw [runTrace] at he
    dsimp only at he
    rcases ih _ e he with h | ⟨p, hp, hk⟩
    · rw [validateAsync_cache] at h
      rcases classify_cache_mem cache t o e h with h1 | h2
      · exact Or.inl h1
      · exact Or.inr ⟨(t, o), by simp, h2⟩
    · exact Or.inr ⟨p, by simp [hp], hk⟩

/-- C7: after every sequence of check calls starting from the empty cache,
every cache key is the normalized (lowercased, stripped, 100-char-capped)
form of some checked input; the cache never exceeds 100 entries; every step
only ever appends (no entry is evicted), and a step from a cache that
already holds 100 entries leaves it unchanged. -/
theorem C7_cache_invariants (trace : List (List Char × ClassifierOutcome)) :
    ((runTrace [] trace).1.length ≤ 100
     ∧ ∀ e ∈ (runTrace [] trace).1, ∃ p ∈ trace, e.1 = normKey p.1)
    ∧ ∀ (cache : TopicCache) (text : List Char) (o : ClassifierOutcome),
        cache <+: (validateAsync cache text o).2.1
        ∧ (cache.length = 100 → (validateAsync cache text o).2.1 = cache) := by
  refine ⟨⟨runTrace_cache_length trace [] (by simp), ?_⟩, ?_⟩
  · intro e he
    rcases runTrace_cache_keys trace [] e he with h | h
    · cases h
    · exact h
  · intro cache text o
    constructor
    · rw [validateAsync_cache]
      rcases classify_cache_shape cache text o with h | ⟨v, h, _⟩
      · rw [h]
      · rw [h]
        exact List.prefix_append _ _
    · intro hfull
      rw [validateAsync_cache]
      exact classify_cache_frozen cache text o hfull

/-- C7 witness: the invariants at a one-call trace, and the frozen-cache
property at a concrete cache of exactly 100 entries. -/
theorem C7_cache_invariants_witness :
    (runTrace [] [(("ciao".data), ClassifierOutcome.reply ("CONSENTITO".data))]).1.length ≤ 100
    ∧ (validateAsync ((List.range 100).map fun i => (List.replicate i 'a', true))
         ("x".data) (ClassifierOutcome.reply ("VIETATO".data))).2.1
        = (List.range 100).map fun i => (List.replicate i 'a', true) := by
  refine ⟨(C7_cache_invariants _).1.1, ?_⟩
  exact ((C7_cache_invariants []).2 _ _ _).2 (by simp)

/-! ### C8: cache determinism -/

theorem cacheLookup_append_self (cache : TopicCache) (k : List Char) (v : Bool)
    (h : cacheLookup cache k = none) : cacheLookup (cache ++ [(k, v)]) k = some v := by
  unfold cacheLookup at h ⊢
  have hf : (cache.find? fun e => e.1 == k) = none := by
    cases hc : cache.find? fun e => e.1 == k
    · rfl
    · rw [hc] at h
      simp at h
  rw [List.find?_append, hf]
  simp

set_option maxRecDepth 8000 in
/-- C8 counterexample: two successive checks of the same text — the first
one failing at the transport level (fail-open Pass, nothing cached), the
second one receiving a blocking reply — return different verdicts, and the
second call does use the network. -/
theorem C8_repeat_not_deterministic :
    (runTrace []
       [(("conviene comprare bitcoin?".data), ClassifierOutcome.transportError),
        (("conviene comprare bitcoin?".data),
          ClassifierOutcome.reply ("VIETATO".data))]).2
      = [(TopicResult.pass, true), (TopicResult.fail topicFailMessage, true)]
    ∧ decide (TopicResult.pass = TopicResult.fail topicFailMessage) = false := by
  exact ⟨by decide, by decide⟩

/-- C8 (amended): whenever the first check leaves the normalized key cached
(a cache hit, or a successful classification inserted below the 100-entry
cap), an immediately following check of the same text returns the same
verdict and makes no external network call.  (When the first classification
fails technically, or the cache is already full, nothing is cached and the
second call contacts the network again, which is what the counterexample
exhibits.) -/
theorem C8_cache_determinism (cache : TopicCache) (text : List Char)
    (o1 o2 : ClassifierOutcome)
    (hcached : cacheLookup (validateAsync cache text o1).2.1 (normKey text) ≠ none) :
    (validateAsync (validateAsync cache text o1).2.1 text o2).1
        = (validateAsync cache text o1).1
    ∧ (validateAsync (validateAsync cache text o1).2.1 text o2).2.2 = false := by
  cases hl : cacheLookup cache (normKey text) with
  | some v =>
    have h1 : classifyWithLLM cache text o1 = ⟨v, cache, false⟩ := classify_hit _ _ _ _ hl
    have hc1 : (validateAsync cache text o1).2.1 = cache := by
      rw [validateAsync_cache, h1]
    have h2 : classifyWithLLM ((validateAsync cache text o1).2.1) text o2
        = ⟨v, cache, false⟩ := by
      rw [hc1]
      exact classify_hit _ _ _ _ hl
    constructor
    · rw [validateAsync_verdict, validateAsync_verdict, h1, h2]
    · rw [validateAsync_network, h2]
  | none =>
    cases o1 with
    | reply r =>
      by_cases hroom : cache.length < 100
      · have h1 := classify_miss_reply cache text r hl hroom
        have hc1 : (validateAsync cache text (ClassifierOutcome.reply r)).2.1
            = cache ++ [(normKey text, parseAllowed r)] := by
          rw [validateAsync_cache, h1]
        have hl2 : cacheLookup (cache ++ [(normKey text, parseAllowed r)]) (normKey text)
            = some (parseAllowed r) := cacheLookup_append_self _ _ _ hl
        have h2 : classifyWithLLM ((validateAsync cache text (ClassifierOutcome.reply r)).2.1)
              text o2
            = ⟨parseAllowed r, cache ++ [(normKey text, parseAllowed r)], false⟩ := by
          rw [hc1]
          exact classify_hit _ _ _ _ hl2
        constructor
        · rw [validateAsync_verdict, validateAsync_verdict, h1, h2]
        · rw [validateAsync_network, h2]
      · exfalso
        apply hcached
        rw [validateAsync_cache, classify_miss_reply_full cache text r hl hroom]
        exact hl
    | transportError =>
      exfalso
      apply hcached
      rw [validateAsync_cache, classify_miss_transport cache text hl]
      exact hl
    | otherError =>
      exfalso
      apply hcached
      rw [validateAsync_cache, classify_miss_other cache text hl]
      exact hl

/-- C8 witness: after a successful cached classification, the repeat check
returns the same verdict with no network use even though the classifier
would now reply differently. -/
theorem C8_cache_determinism_witness :
    (validateAsync
        (validateAsync [] ("ciao".data) (ClassifierOutcome.reply ("CONSENTITO".data))).2.1
        ("ciao".data) (ClassifierOutcome.reply ("VIETATO".data))).1
      = (validateAsync [] ("ciao".data) (ClassifierOutcome.reply ("CONSENTITO".data))).1
    ∧ (validateAsync
        (validateAsync [] ("ciao".data) (ClassifierOutcome.reply ("CONSENTITO".data))).2.1
        ("ciao".data) (ClassifierOutcome.reply ("VIETATO".data))).2.2 = false :=
  C8_cache_determinism [] ("ciao".data) _ _ (by decide)

/-! ### Streaming adapter lemmas -/

/-- The wrapper's action sequence, with the validation condition rewritten
to the equivalent plain length test (a string longer than 20 characters is
in particular non-empty/truthy). -/
theorem wrapper_eq (guard : List Char → GuardOutcome) (chunks : List (List SSELine)) :
    validatedStreamWrapper guard chunks
      = chunks.map StreamAction.yieldChunk ++
        (if 20 < (extractContentFromSSE chunks.flatten).length then
          StreamAction.validateText (extractContentFromSSE chunks.flatten) ::
            (match guard (extractContentFromSSE chunks.flatten) with
             | GuardOutcome.success validatedOutput =>
               if validatedOutput ≠ extractContentFromSSE chunks.flatten then
                 [StreamAction.logViolation]
               else []
             | GuardOutcome.raised => [StreamAction.logValidationFailed])
         else []) := by
  unfold validatedStreamWrapper
  by_cases h : 20 < (extractContentFromSSE chunks.flatten).length
  · have hne : (extractContentFromSSE chunks.flatten).isEmpty = false := by
      cases hx : extractContentFromSSE chunks.flatten
      · rw [hx] at h
        simp at h
      · rfl
    simp [h, hne]
  · simp [h]

/-! ### C2: unconditional chunk forwarding, deferred validation -/

/-- C2 counterexample: for a stream whose extracted text is short (at most
20 characters), the deferred whole-text validation does not run at all —
the claim's "runs ... exactly once" fails for such chunk sequences. -/
theorem C2_short_stream_no_validation :
    countValidateActions (validatedStreamWrapper (fun t => GuardOutcome.success t)
      [[SSELine.content ("hi".data)]]) = 0 := by
  decide

/-- C2 (amended): every chunk is forwarded unconditionally, unchanged and in
receipt order, before anything else; nothing after the forwarded prefix is a
chunk delivery; the deferred whole-text validation runs exactly once when
the extracted text exceeds 20 characters and is otherwise skipped; and the
delivered prefix does not depend on the validation outcome (a deferred
failure is only logged). -/
theorem C2_streaming_forwarding (guard guard2 : List Char → GuardOutcome)
    (chunks : List (List SSELine)) :
    (validatedStreamWrapper guard chunks).take chunks.length
        = chunks.map StreamAction.yieldChunk
    ∧ (∀ a ∈ (validatedStreamWrapper guard chunks).drop chunks.length,
        ∀ c, a ≠ StreamAction.yieldChunk c)
    ∧ countValidateActions (validatedStreamWrapper guard chunks)
        = (if 20 < (extractContentFromSSE chunks.flatten).length then 1 else 0)
    ∧ (validatedStreamWrapper guard chunks).take chunks.length
        = (validatedStreamWrapper guard2 chunks).take chunks.length := by
  have hmaplen : (chunks.map StreamAction.yieldChunk).length = chunks.length :=
    List.length_map _ _
  have htake : ∀ g : List Char → GuardOutcome,
      (validatedStreamWrapper g chunks).take chunks.length
        = chunks.map StreamAction.yieldChunk := by
    intro g
    rw [wrapper_eq, ← hmaplen, List.take_left]
  refine ⟨htake guard, ?_, ?_, by rw [htake guard, htake guard2]⟩
  · intro a ha c
    rw [wrapper_eq, ← hmaplen, List.drop_left] at ha
    by_cases h : 20 < (extractContentFromSSE chunks.flatten).length
    · rw [if_pos h] at ha
      rcases List.mem_cons.mp ha with rfl | ha2
      · simp
      · rcases hg : guard (extractContentFromSSE chunks.flatten) with v | _ <;>
          rw [hg] at ha2
        · by_cases hv : v ≠ extractContentFromSSE chunks.flatten
          · simp [hv] at ha2
            subst ha2
            simp
          · simp [hv] at ha2
        · simp at ha2
          subst ha2
          simp
    · rw [if_neg h] at ha
      cases ha
  · rw [wrapper_eq]
    unfold countValidateActions
    rw [List.countP_append]
    have h0 : List.countP
        (fun a => match a with
          | StreamAction.validateText _ => true
          | _ => false)
        (chunks.map StreamAction.yieldChunk) = 0 := by
      rw [List.countP_eq_zero]
      intro a ha
      rcases List.mem_map.mp ha with ⟨c, _, rfl⟩
      simp
    rw [h0]
    by_cases h : 20 < (extractContentFromSSE chunks.flatten).length
    · rw [if_pos h, if_pos h]
      rcases hg : guard (extractContentFromSSE chunks.flatten) with v | _
      · by_cases hv : v ≠ extractContentFromSSE chunks.flatten
        · simp [List.countP_cons, hv]
        · simp [List.countP_cons, hv]
      · simp [List.countP_cons]
    · rw [if_neg h, if_neg h]
      simp

/-- C2 witness: a long single-chunk stream — the chunk is forwarded first
and validation runs once. -/
theorem C2_streaming_forwarding_witness :
    (validatedStreamWrapper (fun t => GuardOutcome.success t)
       [[SSELine.content ("abcdefghijklmnopqrstuvwxyz".data)]]).take 1
      = [StreamAction.yieldChunk [SSELine.content ("abcdefghijklmnopqrstuvwxyz".data)]]
    ∧ countValidateActions (validatedStreamWrapper (fun t => GuardOutcome.success t)
        [[SSELine.content ("abcdefghijklmnopqrstuvwxyz".data)]]) = 1
    ∧ StreamAction.validateText ("abcdefghijklmnopqrstuvwxyz".data)
        ≠ StreamAction.yieldChunk [] := by
  have h := C2_streaming_forwarding (fun t => GuardOutcome.success t)
    (fun t => GuardOutcome.success t)
    [[SSELine.content ("abcdefghijklmnopqrstuvwxyz".data)]]
  refine ⟨h.1, ?_, ?_⟩
  · rw [h.2.2.1]
    decide
  · exact h.2.1 _ (by decide) []

/-! ### C9: the 20-character validation gate -/

/-- C9: the deferred `output_guard.validate` call appears in the stream
wrapper's actions exactly for the text extracted from the accumulated
stream, and only when that text is longer than 20 characters; short or
empty extracted texts are never validated. -/
theorem C9_short_stream_skip (guard : List Char → GuardOutcome)
    (chunks : List (List SSELine)) (t : List Char) :
    StreamAction.validateText t ∈ validatedStreamWrapper guard chunks ↔
      (t = extractContentFromSSE chunks.flatten
        ∧ 20 < (extractContentFromSSE chunks.flatten).length) := by
  rw [wrapper_eq]
  constructor
  · intro h
    rcases List.mem_append.mp h with hm | ht
    · rcases List.mem_map.mp hm with ⟨c, _, heq⟩
      simp at heq
    · by_cases hc : 20 < (extractContentFromSSE chunks.flatten).length
      · rw [if_pos hc] at ht
        rcases List.mem_cons.mp ht with heq | hlog
        · cases heq
          exact ⟨rfl, hc⟩
        · exfalso
          rcases hg : guard (extractContentFromSSE chunks.flatten) with v | _ <;>
            rw [hg] at hlog
          · by_cases hv : v ≠ extractContentFromSSE chunks.flatten
            · simp [hv] at hlog
            · simp [hv] at hlog
          · simp at hlog
      · rw [if_neg hc] at ht
        cases ht
  · rintro ⟨rfl, hc⟩
    apply List.mem_append.mpr
    right
    rw [if_pos hc]
    exact List.mem_cons_self _ _

/-- C9 witness: a 26-character streamed text is validated. -/
theorem C9_short_stream_skip_witness :
    StreamAction.validateText ("abcdefghijklmnopqrstuvwxyz".data)
      ∈ validatedStreamWrapper (fun t => GuardOutcome.success t)
          [[SSELine.content ("abcdefghijklmnopqrstuvwxyz".data)]] :=
  (C9_short_stream_skip _ _ _).mpr ⟨by decide, by decide⟩

/-! ### C10: SSE text extraction -/

/-- Extraction over content chunks followed by a `complete` event carrying a
non-empty `final_content`: the chunks accumulate and the final content is
appended, after which extraction stops. -/
theorem extract_pre_complete (cs : List (List Char)) (fc : List Char)
    (rest : List SSELine) (h : fc ≠ []) :
    extractContentFromSSE ((cs.map SSELine.content) ++ SSELine.complete fc :: rest)
      = cs.flatten ++ fc := by
  induction cs with
  | nil =>
    cases fc with
    | nil => exact absurd rfl h
    | cons x xs => simp [extractContentFromSSE]
  | cons c cs ih =>
    simp only [List.map_cons, List.cons_append, extractContentFromSSE, List.append_eq, ih,
      List.flatten_cons, List.append_assoc]

/-- C10 counterexample: a `complete` event with an empty `final_content`
does not stop extraction — a `content` event after it still contributes,
while the claim's description predicts extraction stops at the first
`complete` event and yields the empty string here. -/
theorem C10_first_complete_empty :
    extractContentFromSSE [SSELine.complete [], SSELine.content ("x".data)] = "x".data
    ∧ specExtractC10 [SSELine.complete [], SSELine.content ("x".data)] = []
    ∧ decide (("x".data : List Char) = []) = false := by
  exact ⟨rfl, rfl, by decide⟩

/-- C10 (amended): extraction concatenates the chunks of the `content`
events preceding the first `complete` event whose `final_content` is
non-empty, appends that `final_content`, and stops — `complete` events with
empty `final_content` neither contribute nor stop extraction; consequently,
when the final content restates the concatenated chunks, the validated text
contains the response twice. -/
theorem C10_sse_extraction (cs : List (List Char)) (fc : List Char)
    (rest : List SSELine) (hne : fc ≠ []) :
    extractContentFromSSE ((cs.map SSELine.content) ++ SSELine.complete fc :: rest)
        = cs.flatten ++ fc
    ∧ (∀ r : List SSELine,
        extractContentFromSSE (SSELine.complete [] :: r) = extractContentFromSSE r)
    ∧ (cs.flatten ≠ [] →
        extractContentFromSSE
            ((cs.map SSELine.content) ++ SSELine.complete cs.flatten :: rest)
          = cs.flatten ++ cs.flatten) :=
  ⟨extract_pre_complete cs fc rest hne,
   fun r => by simp [extractContentFromSSE],
   fun hf => extract_pre_complete cs _ rest hf⟩

/-- C10 witness: one content chunk restated by the final content — the
extracted text holds it twice. -/
theorem C10_sse_extraction_witness :
    extractContentFromSSE [SSELine.content ("ab".data), SSELine.complete ("ab".data)]
      = "ab".data ++ "ab".data := by
  have h := (C10_sse_extraction [("ab".data)] ("ab".data) [] (by decide)).2.2 (by decide)
  simpa using h

/-! ### C3: PII validator — pattern lemmas

Every string in the language of one of the five cores contains a digit or a
`@`, while the failure message contains neither; hence no matched substring
can occur in the message. -/

theorem mem_optSep_suffix {s t : List Char} (h : t ∈ optSep s) : t <:+ s := by
  unfold optSep at h
  rcases List.mem_cons.mp h with rfl | h2
  · exact List.suffix_rfl
  · cases s with
    | nil => cases h2
    | cons c r =>
      by_cases hc : (isWs c || c = '-') = true
      · simp only [hc, if_true] at h2
        simp at h2
        subst t
        exact List.suffix_cons c r
      · simp only [hc] at h2
        simp at h2

theorem mem_optWs_suffix {s t : List Char} (h : t ∈ optWs s) : t <:+ s := by
  unfold optWs at h
  rcases List.mem_cons.mp h with rfl | h2
  · exact List.suffix_rfl
  · cases s with
    | nil => cases h2
    | cons c r =>
      by_cases hc : isWs c = true
      · simp only [hc, if_true] at h2
        simp at h2
        subst t
        exact List.suffix_cons c r
      · simp only [hc] at h2
        simp at h2

theorem mem_optIntlCode_suffix {s t : List Char} (h : t ∈ optIntlCode s) : t <:+ s := by
  unfold optIntlCode at h
  rcases List.mem_cons.mp h with rfl | h2
  · exact List.suffix_rfl
  · split at h2
    · simp at h2
      subst h2
      exact ⟨['+', '3', '9'], rfl⟩
    · simp at h2
      subst h2
      exact ⟨['0', '0', '3', '9'], rfl⟩
    · cases h2

theorem digitsN_spec {n : Nat} {s r : List Char} (h : digitsN n s = some r) :
    (s.take n).length = n ∧ (s.take n).all isDigit09 = true := by
  unfold digitsN at h
  split at h
  · rename_i hcond
    rw [Bool.and_eq_true, beq_iff_eq] at hcond
    exact hcond
  · cases h

theorem digitsN_digit {n : Nat} {s r : List Char} (h : digitsN n s = some r)
    (hn : 0 < n) : ∃ c ∈ s, isDigit09 c = true := by
  obtain ⟨hlen, hall⟩ := digitsN_spec h
  have hne : s.take n ≠ [] := by
    intro hx
    rw [hx] at hlen
    simp at hlen
    omega
  obtain ⟨c, hc⟩ := List.exists_mem_of_ne_nil _ hne
  exact ⟨c, List.take_subset _ _ hc, List.all_eq_true.mp hall c hc⟩

theorem fiscalCore_digit {s : List Char} (hs : fiscalCore s = true) :
    ∃ c ∈ s, (isDigit09 c || c = '@') = true := by
  unfold fiscalCore at hs
  split at hs
  · rename_i a1 a2 a3 a4 a5 a6 a7 a8 a9 a10 a11 a12 a13 a14 a15 a16
    simp at hs
    refine ⟨a7, by simp, ?_⟩
    simp_all
  · simp at hs

theorem emailCore_at {s : List Char} (hs : emailCore s = true) :
    ∃ c ∈ s, (isDigit09 c || c = '@') = true := by
  unfold emailCore at hs
  split at hs
  · rename_i dom heq
    refine ⟨'@', ?_, by decide⟩
    have hsub := List.dropWhile_suffix (l := s) isLocalChar
    rw [heq] at hsub
    exact hsub.subset (by simp)
  · simp at hs

theorem phoneAlt1Tail_digit {s : List Char} (hs : phoneAlt1Tail s = true) :
    ∃ c ∈ s, isDigit09 c = true := by
  unfold phoneAlt1Tail at hs
  split at hs
  · exact ⟨'3', by simp, by decide⟩
  · simp at hs

theorem phoneAlt2Tail_digit {s : List Char} (hs : phoneAlt2Tail s = true) :
    ∃ c ∈ s, isDigit09 c = true := by
  unfold phoneAlt2Tail at hs
  split at hs
  · exact ⟨'0', by simp, by decide⟩
  · simp at hs

theorem phoneCore_digit {s : List Char} (hs : phoneCore s = true) :
    ∃ c ∈ s, isDigit09 c = true := by
  unfold phoneCore at hs
  simp only [Bool.or_eq_true] at hs
  rcases hs with h | h
  · unfold phoneAlt1 at h
    rcases List.any_eq_true.mp h with ⟨s1, hs1, h1⟩
    rcases List.any_eq_true.mp h1 with ⟨s2, hs2, h2⟩
    obtain ⟨c, hc, hcd⟩ := phoneAlt1Tail_digit h2
    exact ⟨c, (mem_optIntlCode_suffix hs1).subset ((mem_optSep_suffix hs2).subset hc), hcd⟩
  · unfold phoneAlt2 at h
    rcases List.any_eq_true.mp h with ⟨s1, hs1, h1⟩
    rcases List.any_eq_true.mp h1 with ⟨s2, hs2, h2⟩
    obtain ⟨c, hc, hcd⟩ := phoneAlt2Tail_digit h2
    exact ⟨c, (mem_optIntlCode_suffix hs1).subset ((mem_optSep_suffix hs2).subset hc), hcd⟩

theorem cardCore_digit {s : List Char} (hs : cardCore s = true) :
    ∃ c ∈ s, isDigit09 c = true := by
  unfold cardCore at hs
  rcases List.any_eq_true.mp hs with ⟨s1, hs1, _⟩
  unfold cardGroup at hs1
  split at hs1
  · rename_i a b c d rest
    by_cases hd : ([a, b, c, d].all isDigit09) = true
    · refine ⟨a, by simp, ?_⟩
      simp at hd
      exact hd.1
    · simp only [hd] at hs1
      simp at hs1
  · cases hs1

theorem ibanCore_digit {s : List Char} (hs : ibanCore s = true) :
    ∃ c ∈ s, isDigit09 c = true := by
  unfold ibanCore at hs
  split at hs
  · rename_i rest
    revert hs
    cases hd : digitsN 2 rest with
    | none =>
      intro hs
      simp at hs
    | some r1 =>
      intro hs
      obtain ⟨c, hc, hcd⟩ := digitsN_digit hd (by omega)
      exact ⟨c, by simp [hc], hcd⟩
  · simp at hs

theorem pii_core_bad {s : List Char}
    (h : (fiscalCore s || emailCore s || phoneCore s || cardCore s || ibanCore s) = true) :
    ∃ c ∈ s, (isDigit09 c || c = '@') = true := by
  simp only [Bool.or_eq_true] at h
  rcases h with ((((h | h) | h) | h) | h)
  · exact fiscalCore_digit h
  · exact emailCore_at h
  · obtain ⟨c, hc, hd⟩ := phoneCore_digit h
    exact ⟨c, hc, by simp [hd]⟩
  · obtain ⟨c, hc, hd⟩ := cardCore_digit h
    exact ⟨c, hc, by simp [hd]⟩
  · obtain ⟨c, hc, hd⟩ := ibanCore_digit h
    exact ⟨c, hc, by simp [hd]⟩

/-! ### C3: PII validator — message lemmas -/

theorem detectedPII_names {v : List Char} :
    ∀ nm ∈ detectedPII v, nm ∈ [fiscalName, emailName, phoneName, cardName, ibanName] := by
  intro nm h
  unfold detectedPII at h
  split_ifs at h <;> simp_all <;> tauto

theorem piiMessage_chars {detected : List (List Char)}
    (hd : ∀ nm ∈ detected, nm ∈ [fiscalName, emailName, phoneName, cardName, ibanName]) :
    ∀ c ∈ piiMessage (joinComma detected), (isDigit09 c || c = '@') = false := by
  intro c hc
  unfold piiMessage at hc
  rcases List.mem_append.mp hc with h1 | hsuf
  · rcases List.mem_append.mp h1 with hpre | hjoin
    · exact (by decide :
        ∀ x ∈ ("Rilevati dati personali sensibili: ".data),
          (isDigit09 x || x = '@') = false) c hpre
    · rcases mem_joinComma hjoin with ⟨x, hx, hcx⟩ | hsep
      · have hx5 := hd x hx
        simp only [List.mem_cons, List.not_mem_nil, or_false] at hx5
        rcases hx5 with rfl | rfl | rfl | rfl | rfl
        · exact (by decide : ∀ y ∈ fiscalName, (isDigit09 y || y = '@') = false) c hcx
        · exact (by decide : ∀ y ∈ emailName, (isDigit09 y || y = '@') = false) c hcx
        · exact (by decide : ∀ y ∈ phoneName, (isDigit09 y || y = '@') = false) c hcx
        · exact (by decide : ∀ y ∈ cardName, (isDigit09 y || y = '@') = false) c hcx
        · exact (by decide : ∀ y ∈ ibanName, (isDigit09 y || y = '@') = false) c hcx
      · exact (by decide : ∀ x ∈ (", ".data), (isDigit09 x || x = '@') = false) c hsep
  · exact (by decide :
      ∀ x ∈ (". Per motivi di sicurezza e privacy, non posso elaborare informazioni personali identificabili.".data),
        (isDigit09 x || x = '@') = false) c hsuf

theorem name_in_piiMessage {nm : List Char} {detected : List (List Char)}
    (h : nm ∈ detected) :
    containsSub nm (piiMessage (joinComma detected)) = true := by
  unfold piiMessage
  exact containsSub_append_right _ (containsSub_append_left _ (containsSub_joinComma h))

theorem italianPIIValidate_pass_iff (v : List Char) :
    italianPIIValidate v = PIIResult.pass ↔
      (reSearchB fiscalCore v || reSearchB emailCore v || reSearchB phoneCore v ||
       reSearchB cardCore v || reSearchB ibanCore v) = false := by
  unfold italianPIIValidate detectedPII
  cases h1 : reSearchB fiscalCore v <;> cases h2 : reSearchB emailCore v <;>
    cases h3 : reSearchB phoneCore v <;> cases h4 : reSearchB cardCore v <;>
      cases h5 : reSearchB ibanCore v <;> simp

theorem italianPIIValidate_fail_msg {v msg : List Char}
    (h : italianPIIValidate v = PIIResult.fail msg) :
    msg = piiMessage (joinComma (detectedPII v)) := by
  unfold italianPIIValidate at h
  split at h <;> simp_all

theorem search_mem_detected_fiscal {v : List Char} (h : reSearchB fiscalCore v = true) :
    fiscalName ∈ detectedPII v := by
  unfold detectedPII
  split_ifs <;> simp_all

theorem search_mem_detected_email {v : List Char} (h : reSearchB emailCore v = true) :
    emailName ∈ detectedPII v := by
  unfold detectedPII
  split_ifs <;> simp_all

theorem search_mem_detected_phone {v : List Char} (h : reSearchB phoneCore v = true) :
    phoneName ∈ detectedPII v := by
  unfold detectedPII
  split_ifs <;> simp_all

theorem search_mem_detected_card {v : List Char} (h : reSearchB cardCore v = true) :
    cardName ∈ detectedPII v := by
  unfold detectedPII
  split_ifs <;> simp_all

theorem search_mem_detected_iban {v : List Char} (h : reSearchB ibanCore v = true) :
    ibanName ∈ detectedPII v := by
  unfold detectedPII
  split_ifs <;> simp_all

/-- C3: the PII validator fails iff at least one of the five patterns
matches (all are evaluated — the failure message names every matched
category), and the message never contains any substring that any of the
pattern cores can match (in particular, never the matched text itself). -/
theorem C3_pii_validator (v : List Char) :
    (italianPIIValidate v = PIIResult.pass ↔
      (reSearchB fiscalCore v || reSearchB emailCore v || reSearchB phoneCore v ||
       reSearchB cardCore v || reSearchB ibanCore v) = false)
    ∧ ∀ msg, italianPIIValidate v = PIIResult.fail msg →
        ((reSearchB fiscalCore v = true → containsSub fiscalName msg = true)
         ∧ (reSearchB emailCore v = true → containsSub emailName msg = true)
         ∧ (reSearchB phoneCore v = true → containsSub phoneName msg = true)
         ∧ (reSearchB cardCore v = true → containsSub cardName msg = true)
         ∧ (reSearchB ibanCore v = true → containsSub ibanName msg = true))
        ∧ ∀ s : List Char,
            (fiscalCore s || emailCore s || phoneCore s || cardCore s || ibanCore s) = true →
            containsSub s msg = false := by
  refine ⟨italianPIIValidate_pass_iff v, fun msg hmsg => ?_⟩
  have hmeq := italianPIIValidate_fail_msg hmsg
  subst hmeq
  constructor
  · exact ⟨fun h => name_in_piiMessage (search_mem_detected_fiscal h),
      fun h => name_in_piiMessage (search_mem_detected_email h),
      fun h => name_in_piiMessage (search_mem_detected_phone h),
      fun h => name_in_piiMessage (search_mem_detected_card h),
      fun h => name_in_piiMessage (search_mem_detected_iban h)⟩
  · intro s hcore
    by_contra hcs
    rw [Bool.not_eq_false] at hcs
    obtain ⟨c, hcmem, hcbad⟩ := pii_core_bad hcore
    have hcm : c ∈ piiMessage (joinComma (detectedPII v)) :=
      containsSub_subset hcs c hcmem
    have hgood := piiMessage_chars (fun nm hnm => detectedPII_names nm hnm) c hcm
    rw [hcbad] at hgood
    cases hgood

set_option maxRecDepth 8000 in
/-- C3 witness: a text containing an email address — the validator fails,
the message names the `email` category, and the matched address is not a
substring of the message. -/
theorem C3_pii_validator_witness :
    containsSub emailName (piiMessage (joinComma [emailName])) = true
    ∧ containsSub ("a1@b.it".data) (piiMessage (joinComma [emailName])) = false := by
  have h := (C3_pii_validator ("a1@b.it".data)).2 (piiMessage (joinComma [emailName]))
    (by decide)
  exact ⟨h.1.2.1 (by decide), h.2 ("a1@b.it".data) (by decide)⟩

end ChatApp
